import Mathlib

/-!
Verification development for the Career-Cortex extraction-and-ingestion
pipeline.  Texts are modelled as `List Char`; the Python string operations
used by the source (`str.replace`, `str.split()`, `" ".join`, `str.lower`,
`str.title`, `str.strip`, substring membership `in`) are embedded as
executable functions on `List Char`.
-/

/-- Convert a string literal to the `List Char` text representation. -/
def str (s : String) : List Char := s.toList

/-- Characters treated as whitespace by Python's `str.split()` (ASCII part). -/
def isPySpace (c : Char) : Bool :=
  c = ' ' || c = '\t' || c = '\n' || c = '\r' || c = '\x0b' || c = '\x0c'

/-- Python `str.lower()` (ASCII). -/
def pyLower (s : List Char) : List Char := s.map Char.toLower

/-- `leadsWith p s` is true when `p` is an initial segment of `s`. -/
def leadsWith : List Char → List Char → Bool
  | [], _ => true
  | _ :: _, [] => false
  | a :: ps, b :: ss => a == b && leadsWith ps ss

/-- Python substring membership `needle in hay`. -/
def listContains (needle : List Char) : List Char → Bool
  | [] => needle.isEmpty
  | c :: rest => leadsWith needle (c :: rest) || listContains needle rest

/-- Helper for `pyTitle`: `prevAlpha` records whether the previous character
was alphabetic (Python title-cases the first cased character after any
non-cased character and lowercases the rest of a word). -/
def pyTitleAux : Bool → List Char → List Char
  | _, [] => []
  | prevAlpha, c :: rest =>
    (if c.isAlpha then (if prevAlpha then c.toLower else c.toUpper) else c)
      :: pyTitleAux c.isAlpha rest

/-- Python `str.title()`. -/
def pyTitle (s : List Char) : List Char := pyTitleAux false s

/-- Python `str.strip()`: drop leading and trailing whitespace. -/
def pyStrip (s : List Char) : List Char :=
  ((s.dropWhile isPySpace).reverse.dropWhile isPySpace).reverse

/-- Fuel-driven body of `pyReplace`; the fuel starts at the length of the
input, which each step strictly consumes, so the `0` case is unreachable. -/
def pyReplaceAux (p r : List Char) : Nat → List Char → List Char
  | _, [] => []
  | 0, s => s
  | fuel + 1, c :: rest =>
    if ¬ p.isEmpty && leadsWith p (c :: rest) then
      r ++ pyReplaceAux p r fuel ((c :: rest).drop p.length)
    else
      c :: pyReplaceAux p r fuel rest

/-- Python `s.replace(p, r)`: replace left-to-right, non-overlapping, every
occurrence of `p` by `r` (an empty `p` is treated as a no-op here; every
noise pattern in the source is non-empty). -/
def pyReplace (p r s : List Char) : List Char := pyReplaceAux p r s.length s

/-- Helper for `pySplit`: `acc` holds the current (reversed) run of
non-whitespace characters. -/
def pySplitAux : List Char → List Char → List (List Char)
  | [], acc => if acc.isEmpty then [] else [acc.reverse]
  | c :: rest, acc =>
    if isPySpace c then
      if acc.isEmpty then pySplitAux rest [] else acc.reverse :: pySplitAux rest []
    else
      pySplitAux rest (c :: acc)

/-- Python `str.split()` with no argument: split on whitespace runs,
dropping empty fields. -/
def pySplit (s : List Char) : List (List Char) := pySplitAux s []

/-- `" ".join(groups)`. -/
def joinSpace : List (List Char) → List Char
  | [] => []
  | [g] => g
  | g :: gs => g ++ ' ' :: joinSpace gs

/-- `" ".join(s.split())`: collapse whitespace runs to single spaces and
trim the ends. -/
def pyCollapseWs (s : List Char) : List Char := joinSpace (pySplit s)

/-- `true` when no two consecutive characters are both whitespace. -/
def noWsRun : List Char → Bool
  | [] => true
  | [_] => true
  | c :: d :: rest => !(isPySpace c && isPySpace d) && noWsRun (d :: rest)

/-- `true` when the first character (if any) is not whitespace. -/
def noLeadWs : List Char → Bool
  | [] => true
  | c :: _ => !isPySpace c

/-- `true` when the last character (if any) is not whitespace. -/
def noTrailWs (s : List Char) : Bool := noLeadWs s.reverse

/-- Generic shape of both page cleaners (`clean_yc_text`,
`clean_wellfound_text`): remove every noise substring (replacing it by
`rep`), then collapse whitespace. -/
def cleanText (noise : List (List Char)) (rep : List Char) (t : List Char) : List Char :=
  pyCollapseWs (noise.foldl (fun acc p => pyReplace p rep acc) t)

/-- The `noise_patterns` list of `yc_scraper.clean_yc_text`. -/
def ycNoisePatterns : List (List Char) :=
  [str "Menu Work at a Startup",
   str "Startup Jobs Internships Upcoming Events How it Works Log In",
   str "› Work at a Startup",
   str "Software Engineer jobs at Y Combinator startups",
   str "Find open roles and connect with founders",
   str "About What Happens at YC?",
   str "Apply YC Interview Guide FAQ People YC Blog",
   str "Companies Startup Directory Founder Directory Launch YC",
   str "Startup Jobs All Jobs ◦ Engineering ◦ Operations ◦ Marketing ◦ Sales",
   str "Internships Startup Job Guide YC Startup Jobs Blog",
   str "Jobs by role:",
   str "Jobs by Location",
   str "Sign up to see more ›"]

/-- `yc_scraper.clean_yc_text`: noise substrings are replaced by the empty
string, then whitespace is normalized. -/
def clean_yc_text (raw_text : List Char) : List Char :=
  cleanText ycNoisePatterns [] raw_text

/-- The `site_noise` list of `wellfound_scraper.clean_wellfound_text`. -/
def wfSiteNoise : List (List Char) :=
  [str "Wellfound", str "Overview", str "Jobs", str "About us", str "Reviews",
   str "Recommended for you", str "Apply now", str "Save", str "Share",
   str "Recruiters from this company", str "Browse by:", str "Hiring now",
   str "Login", str "Sign Up"]

/-- `wellfound_scraper.clean_wellfound_text`: noise substrings are replaced
by a single space, then whitespace is normalized. -/
def clean_wellfound_text (raw_text : List Char) : List Char :=
  cleanText wfSiteNoise (str " ") raw_text

/-! ## Fallback Extractor (`resume_parser.extract_skills_fallback`) -/

/-- The `common_tech` keyword taxonomy of `extract_skills_fallback`. -/
def common_tech : List (List Char) :=
  [str "python", str "java", str "c++", str "go", str "golang", str "rust",
   str "javascript", str "typescript", str "node.js", str "c#", str "ruby",
   str "php", str "swift", str "kotlin", str "scala",
   str "data structures", str "algorithms", str "big o", str "dynamic programming",
   str "django", str "flask", str "fastapi", str "spring boot", str "express.js",
   str "nest.js",
   str "react", str "vue", str "angular", str "svelte", str "next.js", str "nuxt.js",
   str "rest api", str "graphql", str "grpc", str "websockets",
   str "postgresql", str "mysql", str "mongodb", str "redis", str "cassandra",
   str "dynamodb", str "elasticsearch", str "neo4j", str "sqlite",
   str "aws", str "gcp", str "azure", str "ec2", str "lambda", str "s3",
   str "kubernetes", str "docker",
   str "git", str "jenkins", str "gitlab ci", str "github actions",
   str "terraform", str "ansible",
   str "pytest", str "jest", str "selenium", str "cypress", str "postman",
   str "machine learning", str "deep learning", str "tensorflow", str "pytorch",
   str "scikit-learn", str "nlp", str "computer vision", str "langchain",
   str "huggingface",
   str "kafka", str "airflow", str "spark", str "hadoop", str "etl",
   str "linux", str "bash", str "agile", str "scrum", str "oauth", str "jwt",
   str "microservices"]

/-- The duplicate-removal loop at the end of `extract_skills_fallback`:
keep a skill when its lowercase form has not been seen. -/
def fbDedupAux : List (List Char) → List (List Char) → List (List Char)
  | [], _ => []
  | s :: rest, seen =>
    if pyLower s ∈ seen then fbDedupAux rest seen
    else s :: fbDedupAux rest (pyLower s :: seen)

/-- `resume_parser.extract_skills_fallback`: title-case every taxonomy
keyword occurring in the lowercased text, then deduplicate
case-insensitively preserving order. -/
def extract_skills_fallback (resume_text : List Char) : List (List Char) :=
  let resume_lower := pyLower resume_text
  let found_skills :=
    (common_tech.filter (fun skill => listContains skill resume_lower)).map pyTitle
  fbDedupAux found_skills []

/-! ## Structured Extractor, resume side
(`resume_parser.extract_skills_with_ollama`)

The inference backend is an external HTTP service; its observable outcomes
at this call site are: the call raises (unreachable backend), the response
body is not parseable JSON (raises inside the `try`), or a parsed JSON
object whose `skills` field (default `[]`) is a list of strings. -/

/-- Observable outcome of one inference-backend round trip. -/
inductive Backend where
  | unreachable : Backend
  | badJson : Backend
  | ok : List (List Char) → Backend
deriving DecidableEq

/-- The duplicate-removal loop of `extract_skills_with_ollama`: strip each
skill, skip it when the stripped lowercase form is empty or already seen. -/
def ollamaDedupAux : List (List Char) → List (List Char) → List (List Char)
  | [], _ => []
  | s :: rest, seen =>
    if ¬ (pyStrip s).isEmpty = true ∧ pyLower (pyStrip s) ∉ seen then
      pyStrip s :: ollamaDedupAux rest (pyLower (pyStrip s) :: seen)
    else
      ollamaDedupAux rest seen

/-- Entry point of the dedup loop with an empty `seen` set. -/
def ollamaDedup (skills : List (List Char)) : List (List Char) :=
  ollamaDedupAux skills []

/-- `resume_parser.extract_skills_with_ollama`: returns `[]` for empty or
very short text, `[]` on any backend exception (unreachable backend or
a response that is not parseable JSON), and the cleaned, deduplicated
`skills` field otherwise. -/
def extract_skills_with_ollama (resume_text : List Char) (backend : Backend) :
    List (List Char) :=
  if resume_text.isEmpty ∨ (pyStrip resume_text).length < 50 then []
  else
    match backend with
    | Backend.unreachable => []
    | Backend.badJson => []
    | Backend.ok skills => ollamaDedup skills

/-! ## Resume Pipeline (`resume_parser.parse_resume`)

PDF-to-text decoding is the external collaborator; `parse_resume` here
takes the decoded text (the result of `extract_text_from_pdf`, which
returns the empty string on decode failure) as its input. -/

/-- Decimal rendering of a number interpolated into an f-string. -/
def natStr (n : Nat) : List Char := (toString n).toList

/-- "Failed to extract text from PDF" -/
def msgPdfFail : List Char := str "Failed to extract text from PDF"

/-- "Resume text too short - please upload a complete resume" -/
def msgTooShort : List Char := str "Resume text too short - please upload a complete resume"

/-- The AI-mode success message of `parse_resume`. -/
def msgAI (n : Nat) : List Char :=
  str "✅ Extracted " ++ natStr n ++ str " skills using AI"

/-- The fallback-mode success message of `parse_resume`. -/
def msgFallbackOk (n : Nat) : List Char :=
  str "⚠️ Ollama unavailable - extracted " ++ natStr n ++ str " skills using fallback method"

/-- The message returned when both extraction paths found nothing. -/
def msgFallbackNone : List Char := str "❌ Ollama unavailable and no skills found in fallback"

/-- The success message of the `use_ollama=False` branch. -/
def msgDirectOk (n : Nat) : List Char :=
  str "Extracted " ++ natStr n ++ str " skills"

/-- The failure message of the `use_ollama=False` branch. -/
def msgNoSkills : List Char := str "No technical skills found in resume"

/-- The `(success, skills, message)` tuple returned by `parse_resume`. -/
structure ParseResult where
  success : Bool
  skills : List (List Char)
  message : List Char
deriving DecidableEq

/-- Lines 196-217 of `resume_parser.parse_resume`: the extraction phase
reached after the input-validation checks. -/
def extractionPhase (resume_text : List Char) (use_ollama : Bool) (backend : Backend) :
    ParseResult :=
  if use_ollama then
    let skills := extract_skills_with_ollama resume_text backend
    if ¬ skills.isEmpty = true then
      ⟨true, skills, msgAI skills.length⟩
    else
      let fb := extract_skills_fallback resume_text
      if ¬ fb.isEmpty = true then ⟨true, fb, msgFallbackOk fb.length⟩
      else ⟨false, [], msgFallbackNone⟩
  else
    let fb := extract_skills_fallback resume_text
    if ¬ fb.isEmpty = true then ⟨true, fb, msgDirectOk fb.length⟩
    else ⟨false, [], msgNoSkills⟩

/-- `resume_parser.parse_resume` on the decoded text: reject an empty
decode, reject text shorter than 100 characters, otherwise extract. -/
def parse_resume (resume_text : List Char) (use_ollama : Bool) (backend : Backend) :
    ParseResult :=
  if resume_text.isEmpty = true then ⟨false, [], msgPdfFail⟩
  else if resume_text.length < 100 then ⟨false, [], msgTooShort⟩
  else extractionPhase resume_text use_ollama backend

/-! ## Structured Extractor, job side (`extractor.py`)

`extract_data` returns the parsed JSON dict, or `None` on any exception
(unreachable backend or unparseable response).  The per-job body of
`main` (lines 121-170) then runs the `try:` block at line 135 regardless
of the `if structured_data:` test at line 130 (the block is indented
outside it), so when `extract_data` returned `None` the expression
`structured_data.get('required_skills', [])` raises `AttributeError`,
which the `except mysql.connector.Error` handler does not catch. -/

/-- The JSON dict produced by `extract_data`; each field may be missing. -/
structure StructuredData where
  company : Option (List Char)
  location_scraped : Option (List Char)
  is_remote : Option Bool
  job_type : Option (List Char)
  seniority : Option (List Char)
  required_skills : Option (List (List Char))
deriving DecidableEq

/-- The tuple bound to `vals` and written by the UPDATE in `extractor.main`. -/
structure UpdateVals where
  company : List Char
  location_scraped : List Char
  is_remote_int : Nat
  job_type : List Char
  seniority : List Char
  required_skills : List (List Char)
deriving DecidableEq

/-- A Python exception escaping the per-job body of `extractor.main`. -/
inductive PyExn where
  | attributeError : PyExn
deriving DecidableEq

/-- The per-job body of `extractor.main` after `extract_data` returned
`extract_result`: when it is `None`, `structured_data.get` raises
`AttributeError` (uncaught, since only `mysql.connector.Error` is
handled); otherwise the UPDATE values are assembled with the dict-level
defaults. -/
def mainJobStep (extract_result : Option StructuredData) : Except PyExn UpdateVals :=
  match extract_result with
  | none => Except.error PyExn.attributeError
  | some d =>
      Except.ok
        { company := d.company.getD (str "Not specified")
          location_scraped := d.location_scraped.getD (str "Not specified")
          is_remote_int := if d.is_remote.getD false then 1 else 0
          job_type := d.job_type.getD (str "Full-time")
          seniority := d.seniority.getD (str "Not specified")
          required_skills := d.required_skills.getD [] }

/-! ## Ingestion Store (`job_agent._save_job_to_db`, and the INSERT
blocks of `yc_scraper.scrape_yc` / `wellfound_scraper.scrape_wellfound`)

The store is the `job_openings` table with a uniqueness constraint on
`job_url`; it is modelled as a list of rows in insertion order.  An
INSERT that violates the constraint makes the driver raise a
`mysql.connector.Error` with `errno = 1062`. -/

/-- One row of `job_openings` (the fields these call sites write). -/
structure JobRow where
  job_url : List Char
  job_title : List Char
  raw_description : List Char
deriving DecidableEq

/-- Whether the store already holds a row for `url`. -/
def dbContains (db : List JobRow) (url : List Char) : Bool :=
  db.any (fun r => r.job_url == url)

/-- Raw INSERT against the unique index: on a url collision the store is
unchanged and the driver reports errno 1062; otherwise the row is
appended. -/
def dbInsert (db : List JobRow) (row : JobRow) : List JobRow × Option Nat :=
  if dbContains db row.job_url then (db, some 1062) else (db ++ [row], none)

/-- `job_agent._save_job_to_db`: returns `True` after a committed insert;
any `mysql.connector.Error` (errno 1062 duplicate, or any other) is
caught and the method returns `False`. -/
def save_job_to_db (db : List JobRow) (row : JobRow) : List JobRow × Bool :=
  match dbInsert db row with
  | (db2, none) => (db2, true)
  | (db2, some _) => (db2, false)

/-- The INSERT block of `yc_scraper.scrape_yc` (lines 170-184): a 1062
duplicate is caught, logged and skipped; the loop continues either way. -/
def ycInsertJob (db : List JobRow) (row : JobRow) : List JobRow :=
  (dbInsert db row).1

/-! ## Incremental Loader (the scroll loops of `scrape_yc` lines 73-87
and `scrape_wellfound` lines 95-122)

`hs : Nat → Nat` is the sequence of values returned by successive
`document.body.scrollHeight` reads inside the loop; `last` is the reading
taken before the loop; `fuel` is the remaining attempt budget
(`MAX_SCROLLS`).  The result is the number of scroll attempts performed
and whether the loop declared convergence (broke before exhausting the
budget).  The best-effort show-more click of the wellfound loop does not
read the height and is not modelled. -/

/-- The YC scroll loop: break as soon as a reading equals the previous
one — there is no confirmatory extra attempt. -/
def ycScroll : Nat → Nat → Nat → (Nat → Nat) → Nat × Bool
  | 0, _, _, _ => (0, false)
  | fuel + 1, last, idx, hs =>
    if hs idx = last then (1, true)
    else
      let r := ycScroll fuel (hs idx) (idx + 1) hs
      (r.1 + 1, r.2)

/-- The wellfound scroll loop: on an unchanged reading, perform one extra
confirmatory scroll and break only if the fresh reading still equals the
previous value. -/
def wfScroll : Nat → Nat → Nat → (Nat → Nat) → Nat × Bool
  | 0, _, _, _ => (0, false)
  | fuel + 1, last, idx, hs =>
    if hs idx = last then
      if hs (idx + 1) = last then (2, true)
      else
        let r := wfScroll fuel (hs idx) (idx + 2) hs
        (r.1 + 2, r.2)
    else
      let r := wfScroll fuel (hs idx) (idx + 1) hs
      (r.1 + 1, r.2)

/-! ## Source Adapter link discovery
(`yc_scraper.scrape_yc` lines 103-137, `wellfound_scraper.scrape_wellfound`
lines 135-164, `job_agent._extract_job_links` lines 95-122) -/

/-- An anchor element: its `href` attribute and its visible text. -/
structure Anchor where
  href : List Char
  text : List Char
deriving DecidableEq

/-- The shared `target_roles` allow-list. -/
def targetRoles : List (List Char) :=
  [str "engineer", str "developer", str "backend", str "frontend",
   str "full stack", str "python", str "ai", str "machine learning", str "data"]

/-- The `exclude_roles` deny-list of `scrape_yc`. -/
def excludeRoles : List (List Char) :=
  [str "sales", str "marketing", str "account executive", str "recruiter",
   str "design", str "operations", str "customer"]

/-- `full_url.split('?')[0]`: everything before the first `?`. -/
def stripQuery (s : List Char) : List Char := s.takeWhile (fun c => ¬ c = '?')

/-- The link-discovery loop of `scrape_yc`: absolutize, require a `/jobs/`
segment with a digit, strip the query string, deduplicate on the stripped
url via `seen_urls`, require a non-empty title, apply the deny- and
allow-lists. -/
def ycLinks : List Anchor → List (List Char) → List (List Char × List Char)
  | [], _ => []
  | a :: rest, seen =>
    if a.href.isEmpty then ycLinks rest seen else
    let full := if leadsWith (str "http") a.href then a.href
                else str "https://www.workatastartup.com" ++ a.href
    if ¬ listContains (str "/jobs/") full || ¬ full.any Char.isDigit then
      ycLinks rest seen
    else
    let stripped := stripQuery full
    if stripped ∈ seen then ycLinks rest seen else
    let title := pyStrip a.text
    if title.isEmpty then ycLinks rest seen else
    if excludeRoles.any (fun r => listContains r (pyLower title)) then ycLinks rest seen else
    if ¬ targetRoles.any (fun r => listContains r (pyLower title)) then ycLinks rest seen else
    (title, stripped) :: ycLinks rest (stripped :: seen)

/-- The link-discovery loop of `scrape_wellfound`: require `/jobs/` in the
raw href, absolutize, strip the query string, deduplicate on the stripped
url, require a non-empty title matching the allow-list. -/
def wfLinks : List Anchor → List (List Char) → List (List Char × List Char)
  | [], _ => []
  | a :: rest, seen =>
    if ¬ listContains (str "/jobs/") a.href then wfLinks rest seen else
    let full := if leadsWith (str "http") a.href then a.href
                else str "https://wellfound.com" ++ a.href
    let stripped := stripQuery full
    if stripped ∈ seen then wfLinks rest seen else
    let title := pyStrip a.text
    if title.isEmpty then wfLinks rest seen else
    if ¬ targetRoles.any (fun r => listContains r (pyLower title)) then wfLinks rest seen else
    (title, stripped) :: wfLinks rest (stripped :: seen)

/-- `job_agent._extract_job_links`: keep anchors whose href is non-empty,
unseen (the raw href, query string included), has at least five `/`,
does not contain `jobs/all`, and whose stripped text is non-empty; the
`seen_urls` set is keyed on the raw href. -/
def jaLinks : List Anchor → List (List Char) → List (List Char × List Char)
  | [], _ => []
  | a :: rest, seen =>
    if ¬ a.href.isEmpty = true ∧ a.href ∉ seen ∧ 5 ≤ a.href.count '/' ∧
       ¬ listContains (str "jobs/all") a.href = true ∧ ¬ (pyStrip a.text).isEmpty = true then
      (pyStrip a.text, a.href) :: jaLinks rest (a.href :: seen)
    else
      jaLinks rest seen

/-! ## Lemmas: whitespace normalization (`" ".join(s.split())`) -/

theorem pySplitAux_groups (s : List Char) :
    ∀ acc : List Char, (∀ c ∈ acc, isPySpace c = false) →
      ∀ g ∈ pySplitAux s acc, ¬ g.isEmpty = true ∧ ∀ c ∈ g, isPySpace c = false := by
  induction s with
  | nil =>
    intro acc hacc g hg
    by_cases h : acc.isEmpty
    · simp [pySplitAux, h] at hg
    · simp [pySplitAux, h] at hg
      subst hg
      constructor
      · simp [List.isEmpty_iff] at h ⊢
        simpa using h
      · intro c hc
        exact hacc c (List.mem_reverse.mp hc)
  | cons c rest ih =>
    intro acc hacc g hg
    by_cases hsp : isPySpace c
    · by_cases h : acc.isEmpty
      · simp [pySplitAux, hsp, h] at hg
        exact ih [] (by simp) g hg
      · simp [pySplitAux, hsp, h] at hg
        rcases hg with hg | hg
        · subst hg
          constructor
          · simp [List.isEmpty_iff] at h ⊢
            simpa using h
          · intro x hx
            exact hacc x (List.mem_reverse.mp hx)
        · exact ih [] (by simp) g hg
    · simp only [pySplitAux, hsp, if_false, Bool.false_eq_true] at hg
      refine ih (c :: acc) ?_ g hg
      intro x hx
      rcases List.mem_cons.mp hx with hx | hx
      · subst hx
        simpa using hsp
      · exact hacc x hx

theorem noWsRun_cons (c : Char) (tl : List Char) (hc : isPySpace c = false)
    (h : noWsRun tl = true) : noWsRun (c :: tl) = true := by
  cases tl with
  | nil => rfl
  | cons d r => simp [noWsRun, hc] at h ⊢; exact h

theorem noWsRun_of_nonspace (g : List Char) (h : ∀ c ∈ g, isPySpace c = false) :
    noWsRun g = true := by
  induction g with
  | nil => rfl
  | cons c tl ih =>
    exact noWsRun_cons c tl (h c (by simp)) (ih (fun x hx => h x (by simp [hx])))

theorem noLeadWs_of_nonspace (g : List Char) (h : ∀ c ∈ g, isPySpace c = false) :
    noLeadWs g = true := by
  cases g with
  | nil => rfl
  | cons c tl => simp [noLeadWs, h c (by simp)]

theorem noWsRun_append_sep (g : List Char) (hg : ∀ c ∈ g, isPySpace c = false)
    (J : List Char) (hJ : noWsRun J = true) (hlead : noLeadWs J = true) :
    noWsRun (g ++ ' ' :: J) = true := by
  induction g with
  | nil =>
    cases J with
    | nil => rfl
    | cons d r =>
      simp only [List.nil_append]
      simp [noLeadWs] at hlead
      simp [noWsRun, hlead]
      exact hJ
  | cons c tl ih =>
    have hc : isPySpace c = false := hg c (by simp)
    have htl : ∀ x ∈ tl, isPySpace x = false := fun x hx => hg x (by simp [hx])
    simpa using noWsRun_cons c (tl ++ ' ' :: J) hc (ih htl)

theorem joinSpace_ne_nil (g : List Char) (gs : List (List Char)) (h : ¬ g.isEmpty = true) :
    ¬ (joinSpace (g :: gs)).isEmpty = true := by
  cases gs with
  | nil => simpa [joinSpace] using h
  | cons g2 gs2 =>
    simp only [joinSpace]
    cases g with
    | nil => simp at h
    | cons c tl => simp

theorem noLeadWs_append_left (X Y : List Char) (hX : ¬ X.isEmpty = true)
    (h : noLeadWs X = true) : noLeadWs (X ++ Y) = true := by
  cases X with
  | nil => simp at hX
  | cons c tl => simpa [noLeadWs] using h

theorem joinSpace_props (L : List (List Char))
    (h : ∀ g ∈ L, ¬ g.isEmpty = true ∧ ∀ c ∈ g, isPySpace c = false) :
    noWsRun (joinSpace L) = true ∧ noLeadWs (joinSpace L) = true ∧
      noTrailWs (joinSpace L) = true := by
  induction L with
  | nil => exact ⟨rfl, rfl, rfl⟩
  | cons g gs ih =>
    have hgne : ¬ g.isEmpty = true := (h g (by simp)).1
    have hgns : ∀ c ∈ g, isPySpace c = false := (h g (by simp)).2
    cases gs with
    | nil =>
      refine ⟨noWsRun_of_nonspace g hgns, noLeadWs_of_nonspace g hgns, ?_⟩
      refine noLeadWs_of_nonspace g.reverse ?_
      intro c hc
      exact hgns c (List.mem_reverse.mp hc)
    | cons g2 gs2 =>
      have hrest : ∀ x ∈ g2 :: gs2, ¬ x.isEmpty = true ∧ ∀ c ∈ x, isPySpace c = false :=
        fun x hx => h x (by simp [hx])
      obtain ⟨hJrun, hJlead, hJtrail⟩ := ih hrest
      have hJne : ¬ (joinSpace (g2 :: gs2)).isEmpty = true :=
        joinSpace_ne_nil g2 gs2 (hrest g2 (by simp)).1
      refine ⟨?_, ?_, ?_⟩
      · simpa [joinSpace] using noWsRun_append_sep g hgns (joinSpace (g2 :: gs2)) hJrun hJlead
      · show noLeadWs (g ++ ' ' :: joinSpace (g2 :: gs2)) = true
        cases g with
        | nil => simp at hgne
        | cons c tl => simpa [noLeadWs] using hgns c (by simp)
      · show noTrailWs (g ++ ' ' :: joinSpace (g2 :: gs2)) = true
        unfold noTrailWs
        rw [List.reverse_append, List.reverse_cons, List.append_assoc]
        refine noLeadWs_append_left _ _ ?_ ?_
        · simp [List.isEmpty_iff] at hJne ⊢
          simpa using hJne
        · exact hJtrail

theorem pyCollapseWs_props (s : List Char) :
    noWsRun (pyCollapseWs s) = true ∧ noLeadWs (pyCollapseWs s) = true ∧
      noTrailWs (pyCollapseWs s) = true :=
  joinSpace_props (pySplit s) (pySplitAux_groups s [] (by simp))

/-! ## Claim C3 -/

/-- Claim C3, counterexample: removing the noise substring
"Jobs by Location" from the raw text "Jobs by LocaJobs by Locationtion"
concatenates the surrounding characters into a fresh occurrence of the
very same noise substring, so the cleaned output still contains a member
of the noise list — the claim that `clean(t, N)` never contains a
substring of `N` is false on the code. -/
theorem c3_counterexample :
    listContains (str "Jobs by Location")
      (clean_yc_text (str "Jobs by LocaJobs by Locationtion")) = true := by decide

/-- Claim C3, amended: for every raw text and every noise list the
cleaned output contains no run of two or more whitespace characters and
no leading or trailing whitespace; noise substrings present in the input
are removed left-to-right, but a removal can concatenate surrounding
text into a new occurrence of a noise substring, so the output is not
guaranteed to be free of them. -/
theorem c3_amended (noise : List (List Char)) (rep t : List Char) :
    noWsRun (cleanText noise rep t) = true ∧
      noLeadWs (cleanText noise rep t) = true ∧
      noTrailWs (cleanText noise rep t) = true :=
  pyCollapseWs_props (noise.foldl (fun acc p => pyReplace p rep acc) t)

/-! ## Lemmas: case-insensitive deduplication -/

theorem fbDedupAux_lower_nodup (xs : List (List Char)) :
    ∀ seen : List (List Char),
      ((fbDedupAux xs seen).map pyLower).Nodup ∧
        ∀ y ∈ fbDedupAux xs seen, pyLower y ∉ seen := by
  induction xs with
  | nil => intro seen; simp [fbDedupAux]
  | cons s rest ih =>
    intro seen
    by_cases h : pyLower s ∈ seen
    · simpa [fbDedupAux, h] using ih seen
    · obtain ⟨ihn, ihs⟩ := ih (pyLower s :: seen)
      refine ⟨?_, ?_⟩
      · simp only [fbDedupAux, h, if_false, List.map_cons, List.nodup_cons]
        refine ⟨?_, ihn⟩
        intro hmem
        obtain ⟨y, hy, hyeq⟩ := List.mem_map.mp hmem
        exact (ihs y hy) (by simp [hyeq])
      · intro y hy
        simp only [fbDedupAux, h, if_false, List.mem_cons] at hy
        rcases hy with hy | hy
        · subst hy; exact h
        · intro hcon
          exact (ihs y hy) (by simp [hcon])

theorem fbDedupAux_sublist (xs : List (List Char)) :
    ∀ seen : List (List Char), List.Sublist (fbDedupAux xs seen) xs := by
  induction xs with
  | nil => intro seen; simp [fbDedupAux]
  | cons s rest ih =>
    intro seen
    by_cases h : pyLower s ∈ seen
    · simp only [fbDedupAux, h, if_true]
      exact List.Sublist.cons s (ih seen)
    · simp only [fbDedupAux, h, if_false]
      exact List.Sublist.cons₂ s (ih (pyLower s :: seen))

theorem fbDedupAux_id (xs : List (List Char)) :
    ∀ seen : List (List Char), (xs.map pyLower).Nodup →
      (∀ x ∈ xs, pyLower x ∉ seen) → fbDedupAux xs seen = xs := by
  induction xs with
  | nil => intro seen _ _; rfl
  | cons s rest ih =>
    intro seen hnd hout
    have h : pyLower s ∉ seen := hout s (by simp)
    simp only [fbDedupAux, h, if_false]
    simp only [List.map_cons, List.nodup_cons] at hnd
    refine congrArg (s :: ·) (ih (pyLower s :: seen) hnd.2 ?_)
    intro x hx
    simp only [List.mem_cons, not_or]
    refine ⟨?_, hout x (by simp [hx])⟩
    intro hcon
    exact hnd.1 (hcon ▸ List.mem_map_of_mem pyLower hx)

theorem ollamaDedupAux_lower_nodup (xs : List (List Char)) :
    ∀ seen : List (List Char),
      ((ollamaDedupAux xs seen).map pyLower).Nodup ∧
        ∀ y ∈ ollamaDedupAux xs seen, pyLower y ∉ seen := by
  induction xs with
  | nil => intro seen; simp [ollamaDedupAux]
  | cons s rest ih =>
    intro seen
    simp only [ollamaDedupAux]
    by_cases h : ¬ (pyStrip s).isEmpty = true ∧ pyLower (pyStrip s) ∉ seen
    · rw [if_pos h]
      obtain ⟨ihn, ihs⟩ := ih (pyLower (pyStrip s) :: seen)
      refine ⟨?_, ?_⟩
      · simp only [List.map_cons, List.nodup_cons]
        refine ⟨?_, ihn⟩
        intro hmem
        obtain ⟨y, hy, hyeq⟩ := List.mem_map.mp hmem
        exact (ihs y hy) (by simp [hyeq])
      · intro y hy
        rcases List.mem_cons.mp hy with hy | hy
        · subst hy; exact h.2
        · intro hcon
          exact (ihs y hy) (by simp [hcon])
    · rw [if_neg h]
      exact ih seen

theorem ollamaDedupAux_sublist (xs : List (List Char)) :
    ∀ seen : List (List Char),
      List.Sublist (ollamaDedupAux xs seen) (xs.map pyStrip) := by
  induction xs with
  | nil => intro seen; simp [ollamaDedupAux]
  | cons s rest ih =>
    intro seen
    simp only [ollamaDedupAux, List.map_cons]
    by_cases h : ¬ (pyStrip s).isEmpty = true ∧ pyLower (pyStrip s) ∉ seen
    · rw [if_pos h]
      exact List.Sublist.cons₂ (pyStrip s) (ih (pyLower (pyStrip s) :: seen))
    · rw [if_neg h]
      exact List.Sublist.cons (pyStrip s) (ih seen)

/-! ## Claim C4 -/

theorem common_tech_nodup : common_tech.Nodup := by decide

theorem common_tech_lower_title : ∀ k ∈ common_tech, pyLower (pyTitle k) = k := by decide

theorem extract_skills_fallback_eq (t : List Char) :
    extract_skills_fallback t =
      (common_tech.filter (fun k => listContains k (pyLower t))).map pyTitle := by
  unfold extract_skills_fallback
  apply fbDedupAux_id
  · rw [List.map_map]
    have hcongr :
        (common_tech.filter (fun k => listContains k (pyLower t))).map (pyLower ∘ pyTitle) =
          (common_tech.filter (fun k => listContains k (pyLower t))).map id := by
      apply List.map_congr_left
      intro x hx
      exact common_tech_lower_title x (List.mem_filter.mp hx).1
    rw [hcongr, List.map_id]
    exact common_tech_nodup.filter _
  · simp

theorem count_one_of_nodup {α : Type} [BEq α] [LawfulBEq α] {l : List α}
    (h : l.Nodup) {a : α} (ha : a ∈ l) : l.count a = 1 := by
  induction l with
  | nil => simp at ha
  | cons b rest ih =>
    rw [List.count_cons]
    rcases List.mem_cons.mp ha with ha | ha
    · subst ha
      have hnot : a ∉ rest := (List.nodup_cons.mp h).1
      simp [List.count_eq_zero.mpr hnot]
    · have hne : ¬ b = a := by
        intro hcon
        exact (List.nodup_cons.mp h).1 (hcon ▸ ha)
      simp only [ih (List.nodup_cons.mp h).2 ha]
      simp [hne]

/-- Claim C4: when the text contains a taxonomy keyword `k`
case-insensitively, the fallback extractor's output contains the
title-cased form of `k` exactly once (however often `k` occurs), and the
whole output is a sublist of the title-cased taxonomy, i.e. entries
appear in taxonomy order. -/
theorem c4_exactly_once (t k : List Char) (hk : k ∈ common_tech)
    (hocc : listContains k (pyLower t) = true) :
    (extract_skills_fallback t).count (pyTitle k) = 1 ∧
      List.Sublist (extract_skills_fallback t) (common_tech.map pyTitle) := by
  have heq := extract_skills_fallback_eq t
  constructor
  · rw [heq]
    apply count_one_of_nodup
    · apply List.Nodup.map_on
      · intro x hx y hy hxy
        have hx2 := (List.mem_filter.mp hx).1
        have hy2 := (List.mem_filter.mp hy).1
        calc x = pyLower (pyTitle x) := (common_tech_lower_title x hx2).symm
          _ = pyLower (pyTitle y) := by rw [hxy]
          _ = y := common_tech_lower_title y hy2
      · exact common_tech_nodup.filter _
    · exact List.mem_map_of_mem pyTitle (List.mem_filter.mpr ⟨hk, hocc⟩)
  · rw [heq]
    exact (List.filter_sublist _).map pyTitle

/-- Claim C4, witness at a concrete input: "python and python" yields
"Python" exactly once. -/
theorem c4_witness :
    (extract_skills_fallback (str "python and python")).count (pyTitle (str "python")) = 1 :=
  (c4_exactly_once (str "python and python") (str "python") (by decide) (by decide)).1

/-! ## Claim C6 -/

/-- An `extract_data` result whose `required_skills` holds two entries
that differ only in case. -/
def dupSkillData : StructuredData :=
  { company := none, location_scraped := none, is_remote := none,
    job_type := none, seniority := none,
    required_skills := some [str "Python", str "python"] }

/-- Claim C6, counterexample: `extractor.main` persists the
`required_skills` array verbatim (`json.dumps(skills_list)` with no
deduplication), so a response containing "Python" and "python" is stored
with two entries that are equal under case-insensitive comparison. -/
theorem c6_counterexample :
    Except.map (fun v => v.required_skills) (mainJobStep (some dupSkillData)) =
        Except.ok [str "Python", str "python"] ∧
      pyLower (str "Python") = pyLower (str "python") ∧
      ¬ str "Python" = str "python" :=
  ⟨rfl, rfl, by decide⟩

/-- Claim C6, amended: the resume-side skill sequences (the inference
path's cleaned list and the fallback extractor's list) contain no two
entries equal under case-insensitive comparison and preserve first-seen
order (they are sublists of the stripped input, resp. of the title-cased
taxonomy); a posting's persisted requiredSkills, by contrast, are taken
verbatim from the extractor response and are not deduplicated. -/
theorem c6_amended (skills : List (List Char)) (t : List Char) (d : StructuredData) :
    ((ollamaDedup skills).map pyLower).Nodup ∧
      List.Sublist (ollamaDedup skills) (skills.map pyStrip) ∧
      ((extract_skills_fallback t).map pyLower).Nodup ∧
      List.Sublist (extract_skills_fallback t) (common_tech.map pyTitle) ∧
      Except.map (fun v => v.required_skills) (mainJobStep (some d)) =
        Except.ok (d.required_skills.getD []) := by
  refine ⟨(ollamaDedupAux_lower_nodup skills []).1, ollamaDedupAux_sublist skills [],
    (fbDedupAux_lower_nodup _ []).1, ?_, rfl⟩
  rw [extract_skills_fallback_eq t]
  exact (List.filter_sublist _).map pyTitle

/-! ## Claim C1 -/

/-- Claim C1 is a code bug: on a soft failure of the Structured
Extractor, `extract_data` returns `None`; the `try:` block at
extractor.py line 135 is indented outside the `if structured_data:`
guard at line 130, so it runs anyway and
`structured_data.get('required_skills', [])` raises `AttributeError`,
which the `except mysql.connector.Error` handler does not catch — the
soft failure escapes `main` as an unhandled exception instead of passing
control to any fallback (the job pipeline has no fallback extractor at
all). This theorem evaluates the per-job body at the failing input. -/
theorem c1_extractor_crash :
    mainJobStep none = Except.error PyExn.attributeError := rfl

/-! ## Claim C2 -/

/-- A concrete posting row. -/
def exRow : JobRow :=
  { job_url := str "https://www.workatastartup.com/jobs/100",
    job_title := str "Backend Engineer",
    raw_description := str "desc" }

/-- Claim C2, counterexample: inserting the same posting twice through
`job_agent._save_job_to_db` leaves one row, but the second call returns
`False` (its caller prints a duplicate marker and does not count it as a
save) — it does not report success, contradicting the claim that both
insert calls report success. -/
theorem c2_counterexample :
    (save_job_to_db (save_job_to_db [] exRow).1 exRow).2 = false := by decide

theorem countP_eq_zero_of_not_contains (db : List JobRow) (url : List Char)
    (h : dbContains db url = false) :
    db.countP (fun r => r.job_url == url) = 0 := by
  induction db with
  | nil => rfl
  | cons r rest ih =>
    simp only [dbContains, List.any_cons, Bool.or_eq_false_iff] at h
    rw [List.countP_cons]
    simp only [h.1, if_false, Nat.add_zero]
    exact ih (by simpa [dbContains] using h.2)

/-- Claim C2, amended: inserting the same url twice leaves exactly one
row in the store and neither call lets the constraint error escape; the
first call reports success (`True`), but the second call reports `False`
— the errno-1062 rejection is caught and handled as a duplicate no-op,
yet it is not reported as success. -/
theorem c2_amended (db : List JobRow) (row : JobRow)
    (hnew : dbContains db row.job_url = false) :
    (save_job_to_db db row).2 = true ∧
      (save_job_to_db (save_job_to_db db row).1 row).2 = false ∧
      ((save_job_to_db (save_job_to_db db row).1 row).1.countP
        (fun r => r.job_url == row.job_url)) = 1 := by
  have hins : dbInsert db row = (db ++ [row], none) := by
    unfold dbInsert
    rw [if_neg (by simp [hnew])]
  have hfst : save_job_to_db db row = (db ++ [row], true) := by
    unfold save_job_to_db
    rw [hins]
  have hdup : dbContains (db ++ [row]) row.job_url = true := by
    simp [dbContains]
  have hins2 : dbInsert (db ++ [row]) row = (db ++ [row], some 1062) := by
    unfold dbInsert
    rw [if_pos (by simp [hdup])]
  have hsnd : save_job_to_db (db ++ [row]) row = (db ++ [row], false) := by
    unfold save_job_to_db
    rw [hins2]
  rw [hfst]
  simp only [hsnd]
  refine ⟨trivial, trivial, ?_⟩
  rw [List.countP_append, countP_eq_zero_of_not_contains db row.job_url hnew]
  simp [List.countP_cons]

/-- Claim C2, witness: the amended statement at a concrete row and an
empty store. -/
theorem c2_witness :
    (save_job_to_db [] exRow).2 = true ∧
      (save_job_to_db (save_job_to_db [] exRow).1 exRow).2 = false ∧
      ((save_job_to_db (save_job_to_db [] exRow).1 exRow).1.countP
        (fun r => r.job_url == exRow.job_url)) = 1 :=
  c2_amended [] exRow (by decide)

/-! ## Claim C5 -/

/-- Claim C5, counterexample: with a budget of 3 and the height sequence
[100, 100] (initial reading 100, first post-scroll reading 100), the YC
scroll loop declares convergence after a single attempt, performing zero
confirmatory extra attempts — the claim that every loader performs
exactly one confirmatory extra attempt on an unchanged height is false
for the YC variant. -/
theorem c5_counterexample : ycScroll 3 100 0 (fun _ => 100) = (1, true) := rfl

theorem wfScroll_converged_ge_two (fuel : Nat) :
    ∀ (last idx : Nat) (hs : Nat → Nat), (wfScroll fuel last idx hs).2 = true →
      2 ≤ (wfScroll fuel last idx hs).1 := by
  induction fuel with
  | zero => intro last idx hs h; simp [wfScroll] at h
  | succ n ih =>
    intro last idx hs h
    by_cases h1 : hs idx = last
    · by_cases h2 : hs (idx + 1) = last
      · simp [wfScroll, h1, h2]
      · simp only [wfScroll, h1, if_true, h2, if_false] at h ⊢
        omega
    · simp only [wfScroll, h1, if_false] at h ⊢
      have := ih (hs idx) (idx + 1) hs h
      omega

/-- Claim C5, amended: the wellfound loader performs exactly one
confirmatory extra attempt when the height is unchanged, declaring
convergence only after a second consecutive equal reading (so a
converged wellfound run always spends at least 2 attempts, and with
budget 3 and heights [100, 100] it converges with exactly 2); the YC
loader declares convergence immediately on the first unchanged reading
with no confirmatory attempt (1 attempt on the same sequence).  Both
converge well within the attempt budget. -/
theorem c5_amended :
    (∀ (fuel last idx : Nat) (hs : Nat → Nat),
        (wfScroll fuel last idx hs).2 = true → 2 ≤ (wfScroll fuel last idx hs).1) ∧
      wfScroll 3 100 0 (fun _ => 100) = (2, true) ∧
      ycScroll 3 100 0 (fun _ => 100) = (1, true) :=
  ⟨fun fuel last idx hs h => wfScroll_converged_ge_two fuel last idx hs h, rfl, rfl⟩

/-- Claim C5, witness: the converged-implies-two-attempts part of the
amended statement applied at the concrete [100, 100] run. -/
theorem c5_witness : 2 ≤ (wfScroll 3 100 0 (fun _ => 100)).1 :=
  c5_amended.1 3 100 0 (fun _ => 100) (by decide)

/-! ## Claim C7 -/

theorem takeWhile_idem {α : Type} (p : α → Bool) (l : List α) :
    (l.takeWhile p).takeWhile p = l.takeWhile p := by
  induction l with
  | nil => rfl
  | cons c rest ih => by_cases h : p c <;> simp [List.takeWhile_cons, h, ih]

theorem stripQuery_idem (u : List Char) : stripQuery (stripQuery u) = stripQuery u :=
  takeWhile_idem _ u

theorem linksConsInv (title u : List Char) (seen : List (List Char))
    (out : List (List Char × List Char))
    (hnodup : (out.map Prod.snd).Nodup)
    (hout : ∀ p ∈ out, p.2 ∉ u :: seen ∧ stripQuery p.2 = p.2)
    (hu : u ∉ seen) (huq : stripQuery u = u) :
    (List.map Prod.snd ((title, u) :: out)).Nodup ∧
      ∀ p ∈ (title, u) :: out, p.2 ∉ seen ∧ stripQuery p.2 = p.2 := by
  constructor
  · simp only [List.map_cons, List.nodup_cons]
    refine ⟨?_, hnodup⟩
    intro hmem
    obtain ⟨q, hq, hqeq⟩ := List.mem_map.mp hmem
    exact (hout q hq).1 (by simp [hqeq])
  · intro p hp
    rcases List.mem_cons.mp hp with hp | hp
    · subst hp
      exact ⟨hu, huq⟩
    · exact ⟨fun hcon => (hout p hp).1 (by simp [hcon]), (hout p hp).2⟩

theorem ycLinks_inv (as : List Anchor) :
    ∀ seen : List (List Char),
      ((ycLinks as seen).map Prod.snd).Nodup ∧
        ∀ p ∈ ycLinks as seen, p.2 ∉ seen ∧ stripQuery p.2 = p.2 := by
  induction as with
  | nil => intro seen; simp [ycLinks]
  | cons a rest ih =>
    intro seen
    simp only [ycLinks]
    split_ifs
    all_goals
      first
      | exact ih seen
      | exact linksConsInv _ _ _ _ (ih _).1 (ih _).2 (by assumption) (stripQuery_idem _)

theorem wfLinks_inv (as : List Anchor) :
    ∀ seen : List (List Char),
      ((wfLinks as seen).map Prod.snd).Nodup ∧
        ∀ p ∈ wfLinks as seen, p.2 ∉ seen ∧ stripQuery p.2 = p.2 := by
  induction as with
  | nil => intro seen; simp [wfLinks]
  | cons a rest ih =>
    intro seen
    simp only [wfLinks]
    split_ifs
    all_goals
      first
      | exact ih seen
      | exact linksConsInv _ _ _ _ (ih _).1 (ih _).2 (by assumption) (stripQuery_idem _)

/-- Claim C7, counterexample: `job_agent._extract_job_links` keys its
`seen_urls` set on the raw href, query string included, so two anchors
whose hrefs differ only in the query string are both returned — the
output contains two (title, url) pairs sharing the same query-stripped
absolute URL. -/
theorem c7_counterexample :
    (jaLinks [⟨str "https://remote.com/jobs/dev/123?a=1", str "Dev One"⟩,
              ⟨str "https://remote.com/jobs/dev/123?a=2", str "Dev Two"⟩] []).map
        (fun p => stripQuery p.2) =
      [str "https://remote.com/jobs/dev/123", str "https://remote.com/jobs/dev/123"] := by
  decide

/-- Claim C7, amended: the YC and wellfound adapters deduplicate on the
query-stripped absolute URL — no two returned pairs share one (the
returned urls are pairwise distinct and already query-stripped) — but
the generic-board adapter (`_extract_job_links`) deduplicates on the raw
href including its query string, so it can return two pairs sharing the
same query-stripped URL. -/
theorem c7_amended (as : List Anchor) :
    ((ycLinks as []).map Prod.snd).Nodup ∧
      ((wfLinks as []).map Prod.snd).Nodup ∧
      (ycLinks as []).map (fun p => stripQuery p.2) = (ycLinks as []).map Prod.snd ∧
      (wfLinks as []).map (fun p => stripQuery p.2) = (wfLinks as []).map Prod.snd := by
  obtain ⟨hyn, hys⟩ := ycLinks_inv as []
  obtain ⟨hwn, hws⟩ := wfLinks_inv as []
  refine ⟨hyn, hwn, ?_, ?_⟩
  · exact List.map_congr_left (fun p hp => (hys p hp).2)
  · exact List.map_congr_left (fun p hp => (hws p hp).2)

/-! ## Claims C8, C9, C10 -/

theorem msgAI_head (n : Nat) : (msgAI n).head? = some '✅' := rfl

theorem msgFallbackOk_head (n : Nat) : (msgFallbackOk n).head? = some '⚠' := rfl

theorem msgFallbackNone_head : msgFallbackNone.head? = some '❌' := rfl

theorem msgFallbackOk_ne_msgAI (k n : Nat) : ¬ msgFallbackOk k = msgAI n := by
  intro h
  have h2 := congrArg List.head? h
  rw [msgFallbackOk_head, msgAI_head] at h2
  exact absurd h2 (by decide)

theorem msgFallbackNone_ne_msgAI (n : Nat) : ¬ msgFallbackNone = msgAI n := by
  intro h
  have h2 := congrArg List.head? h
  rw [msgFallbackNone_head, msgAI_head] at h2
  exact absurd h2 (by decide)

theorem extract_unreachable (t : List Char) :
    extract_skills_with_ollama t Backend.unreachable = [] := by
  unfold extract_skills_with_ollama
  split <;> rfl

theorem extract_ok_nil (t : List Char) :
    extract_skills_with_ollama t (Backend.ok []) = [] := by
  unfold extract_skills_with_ollama
  split <;> rfl

theorem extractionPhase_ai (t : List Char) (b : Backend)
    (hne : ¬ extract_skills_with_ollama t b = []) :
    extractionPhase t true b =
      ⟨true, extract_skills_with_ollama t b,
        msgAI (extract_skills_with_ollama t b).length⟩ := by
  have h : ¬ (extract_skills_with_ollama t b).isEmpty = true := by
    simpa [List.isEmpty_iff] using hne
  simp only [extractionPhase]
  rw [if_pos trivial, if_pos h]

theorem extractionPhase_fb (t : List Char) (b : Backend)
    (he : extract_skills_with_ollama t b = []) :
    extractionPhase t true b =
      if ¬ (extract_skills_fallback t).isEmpty = true then
        ⟨true, extract_skills_fallback t, msgFallbackOk (extract_skills_fallback t).length⟩
      else ⟨false, [], msgFallbackNone⟩ := by
  simp only [extractionPhase]
  rw [if_pos trivial, he]
  rw [if_neg (by simp)]

theorem parse_resume_long (t : List Char) (u : Bool) (b : Backend)
    (h1 : ¬ t.isEmpty = true) (h2 : ¬ t.length < 100) :
    parse_resume t u b = extractionPhase t u b := by
  unfold parse_resume
  rw [if_neg h1, if_neg h2]

/-- Claim C8: non-empty decoded text shorter than 100 characters is
rejected with the "too short" message for every backend and mode (so
neither extractor is ever consulted: the result does not depend on
them), while text of length exactly 100 is accepted and handed to the
extraction phase. -/
theorem c8_boundary :
    (∀ (t : List Char) (u : Bool) (b : Backend),
        ¬ t.isEmpty = true → t.length < 100 →
          parse_resume t u b = ⟨false, [], msgTooShort⟩) ∧
      ∀ (t : List Char) (u : Bool) (b : Backend), t.length = 100 →
        parse_resume t u b = extractionPhase t u b := by
  constructor
  · intro t u b h1 h2
    unfold parse_resume
    rw [if_neg h1, if_pos h2]
  · intro t u b h
    cases t with
    | nil => simp at h
    | cons c ts =>
      refine parse_resume_long (c :: ts) u b (by simp) ?_
      omega

/-- Claim C8, witness: a 99-character text is rejected as too short and
a 100-character text reaches the extraction phase. -/
theorem c8_witness :
    parse_resume (List.replicate 99 'a') true Backend.unreachable =
        ⟨false, [], msgTooShort⟩ ∧
      parse_resume (List.replicate 100 'a') true Backend.unreachable =
        extractionPhase (List.replicate 100 'a') true Backend.unreachable :=
  ⟨c8_boundary.1 (List.replicate 99 'a') true Backend.unreachable (by decide) (by decide),
   c8_boundary.2 (List.replicate 100 'a') true Backend.unreachable (by decide)⟩

/-- Claim C9: for every accepted resume text, an unreachable inference
backend makes `parse_resume` return exactly the Fallback Extractor's
skills, with a diagnostic that is either the explicit fallback-mode
message or the explicit "no skills found by either path" message — and
never the AI-mode message. -/
theorem c9_unreachable (t : List Char)
    (h1 : ¬ t.isEmpty = true) (h2 : ¬ t.length < 100) :
    (parse_resume t true Backend.unreachable).skills = extract_skills_fallback t ∧
      (parse_resume t true Backend.unreachable =
          ⟨true, extract_skills_fallback t, msgFallbackOk (extract_skills_fallback t).length⟩ ∨
        parse_resume t true Backend.unreachable = ⟨false, [], msgFallbackNone⟩) ∧
      ∀ n, ¬ (parse_resume t true Backend.unreachable).message = msgAI n := by
  have hp := parse_resume_long t true Backend.unreachable h1 h2
  rw [hp, extractionPhase_fb t Backend.unreachable (extract_unreachable t)]
  by_cases hfb : ¬ (extract_skills_fallback t).isEmpty = true
  · rw [if_pos hfb]
    exact ⟨rfl, Or.inl rfl, fun n => msgFallbackOk_ne_msgAI _ n⟩
  · rw [if_neg hfb]
    have : extract_skills_fallback t = [] := by
      rw [← List.isEmpty_iff]
      simpa using hfb
    exact ⟨this.symm, Or.inr rfl, fun n => msgFallbackNone_ne_msgAI n⟩

/-- A concrete accepted resume text containing the keyword "python". -/
def tEx : List Char := str "python " ++ List.replicate 95 'a'

/-- Claim C9, witness: on `tEx` with the backend unreachable, the
returned skills are the fallback extractor's result. -/
theorem c9_witness :
    (parse_resume tEx true Backend.unreachable).skills = extract_skills_fallback tEx :=
  (c9_unreachable tEx (by decide) (by decide)).1

/-- Claim C10: for every accepted resume text, the AI-mode message is
returned exactly when the inference path produced a non-empty skill
list; whenever it produced the empty list — in particular when a
reachable backend legitimately found zero skills — the diagnostic is one
of the two "Ollama unavailable" fallback messages, and the result for a
reachable backend with zero skills is literally identical to the result
for an unreachable backend. -/
theorem c10_ai_iff (t : List Char) (b : Backend)
    (h1 : ¬ t.isEmpty = true) (h2 : ¬ t.length < 100) :
    ((∃ n, (parse_resume t true b).message = msgAI n) ↔
        ¬ extract_skills_with_ollama t b = []) ∧
      (extract_skills_with_ollama t b = [] →
        (parse_resume t true b).message = msgFallbackOk (extract_skills_fallback t).length ∨
          (parse_resume t true b).message = msgFallbackNone) ∧
      parse_resume t true (Backend.ok []) = parse_resume t true Backend.unreachable := by
  have hp := parse_resume_long t true b h1 h2
  have hfbmsg : extract_skills_with_ollama t b = [] →
      (parse_resume t true b).message = msgFallbackOk (extract_skills_fallback t).length ∨
        (parse_resume t true b).message = msgFallbackNone := by
    intro he
    rw [hp, extractionPhase_fb t b he]
    by_cases hfb : ¬ (extract_skills_fallback t).isEmpty = true
    · rw [if_pos hfb]; exact Or.inl rfl
    · rw [if_neg hfb]; exact Or.inr rfl
  refine ⟨⟨?_, ?_⟩, hfbmsg, ?_⟩
  · rintro ⟨n, hn⟩ he
    rcases hfbmsg he with hm | hm
    · exact msgFallbackOk_ne_msgAI _ n (hm ▸ hn)
    · exact msgFallbackNone_ne_msgAI n (hm ▸ hn)
  · intro hne
    refine ⟨(extract_skills_with_ollama t b).length, ?_⟩
    rw [hp, extractionPhase_ai t b hne]
  · rw [parse_resume_long t true (Backend.ok []) h1 h2,
      parse_resume_long t true Backend.unreachable h1 h2,
      extractionPhase_fb t (Backend.ok []) (extract_ok_nil t),
      extractionPhase_fb t Backend.unreachable (extract_unreachable t)]

/-- Claim C10, witness: on `tEx`, a reachable backend that returned zero
skills is indistinguishable from an unreachable backend. -/
theorem c10_witness :
    parse_resume tEx true (Backend.ok []) = parse_resume tEx true Backend.unreachable :=
  (c10_ai_iff tEx (Backend.ok []) (by decide) (by decide)).2.2
